import Mathlib

/-!
Verification of the GradCalc pipeline (`Att2GradeCalc.py`).

The core of the repository is embedded shallowly:

* `extract_course_title` — the title scanner (`re.match` on the pattern `^[A-Z]{2,}-\d{3}-\d{2}`
  followed by `re.sub` deleting the class `[^A-Za-z0-9\- ]` from the stripped line);
* `parseLine` / `extract_assignments_and_grades` — the grade-line parser
  (`re.search` on the pattern `(\d+)/(\d+)\s*(?:\d+%)?` over each stripped line, with the
  header filter and `line.replace` deleting the matched substring);
* `calculate_overall_grade` — the two-tier weighted/unweighted aggregator.

Modelling conventions:
* Python floats are modelled as exact rationals (`ℚ`); every numeric literal in
  the claims is exactly representable, and no claim depends on binary rounding.
* `\d` and `[A-Z]` are modelled as ASCII digit / upper-case classes, `\s` and
  `str.strip()` as the ASCII whitespace class; no claim involves non-ASCII text.
* `str.splitlines` is modelled on the line terminators `\n`, `\r`, `\r\n`.
* pandas `NaN` weights are modelled as `none` in `Option ℚ`; the only place the
  distinction could matter (a section whose first record has weight `NaN`
  while a later one is not) is NaN-poisoned in the Python code and is touched
  by no claim.
* Python `round(x, 2)` (round half to even) is `round2`.
* The Python regexes above contain no construct where backtracking can produce
  a non-greedy submatch: each `\d+` group is followed by a character that is
  not a digit, and `\s*` by a character that is not whitespace, so each group
  always matches the maximal run.  The embeddings therefore use `takeWhile`.
-/

namespace GradCalc

/-- ASCII whitespace as stripped by Python `str.strip()` and matched by `\s`. -/
def pyIsSpace (c : Char) : Bool :=
  c = ' ' || c = '\t' || c = '\n' || c = '\r' || c = '\x0b' || c = '\x0c'

/-- Python `str.strip()`: drop whitespace from both ends. -/
def pyStrip (l : List Char) : List Char :=
  ((l.dropWhile pyIsSpace).reverse.dropWhile pyIsSpace).reverse

/-- Auxiliary scanner for `splitlines`: `cur` is the (reversed) current line. -/
def splitlinesAux (cur : List Char) : List Char → List (List Char)
  | [] => [cur.reverse]
  | '\r' :: '\n' :: t => cur.reverse :: (if t.isEmpty then [] else splitlinesAux [] t)
  | '\n' :: t => cur.reverse :: (if t.isEmpty then [] else splitlinesAux [] t)
  | '\r' :: t => cur.reverse :: (if t.isEmpty then [] else splitlinesAux [] t)
  | c :: t => splitlinesAux (c :: cur) t

/-- Python `str.splitlines()` (restricted to the `\n`, `\r`, `\r\n` terminators):
no trailing empty line for text ending in a terminator, `[]` on empty text. -/
def splitlines (l : List Char) : List (List Char) :=
  if l.isEmpty then [] else splitlinesAux [] l

/-- Python substring containment (`pat in l`). -/
def containsSub (pat : List Char) : List Char → Bool
  | [] => pat.isEmpty
  | c :: t => pat.isPrefixOf (c :: t) || containsSub pat t

/-- The header/noise markers of `extract_assignments_and_grades`
(`["Grade tem", "Points", "Comments", "Grades -"]`). -/
def headerMarkers : List String := ["Grade tem", "Points", "Comments", "Grades -"]

/-- Embeds the any-header-in-line check on a (stripped) line. -/
def containsAnyHeader (l : List Char) : Bool :=
  headerMarkers.any (fun h => containsSub h.data l)

/-- Characters kept by the `re.sub` cleanup (the class `[A-Za-z0-9\- ]`). -/
def keepTitleChar (c : Char) : Bool :=
  c.isAlpha || c.isDigit || c = '-' || c = ' '

/-- Holds when `re.match` on the pattern `^[A-Z]{2,}-\d{3}-\d{2}` succeeds: the maximal leading
run of upper-case letters has length ≥ 2 (backtracking to a shorter run cannot
help, since the following character would again be upper case, not `-`) and is
followed by `-`, three digits, `-`, two digits. -/
def courseMatch (l : List Char) : Bool :=
  let ups := l.takeWhile Char.isUpper
  decide (2 ≤ ups.length) &&
    match l.drop ups.length with
    | '-' :: a :: b :: c :: '-' :: d :: e :: _ =>
      a.isDigit && b.isDigit && c.isDigit && d.isDigit && e.isDigit
    | _ => false

/-- Embeds `extract_course_title`: first line matching the course pattern, stripped
then cleaned of characters outside `[A-Za-z0-9\- ]`; else `"Unknown Course"`. -/
def extract_course_title (text : String) : String :=
  match (splitlines text.data).find? courseMatch with
  | some line => String.mk ((pyStrip line).filter keepTitleChar)
  | none => "Unknown Course"

/-- Integer value of a digit string (left fold, as Python `int`). -/
def natOfDigits (ds : List Char) : Nat :=
  ds.foldl (fun n c => 10 * n + (c.toNat - '0'.toNat)) 0

/-- One successful match of the grade regex `(\d+)/(\d+)\s*(?:\d+%)?`:
`group0` is the whole matched substring, `a` and `b` the two integer groups. -/
structure GMatch where
  group0 : List Char
  a : Nat
  b : Nat
deriving DecidableEq, Repr

/-- Attempt the grade regex at the start of `l` (one anchor position of the
scan): `(\d+)` is the maximal digit run (must be nonempty and followed by `/`),
the second `(\d+)` likewise, `\s*` the maximal whitespace run, and the optional
`(?:\d+%)?` is included exactly when a nonempty digit run immediately followed
by `%` starts right after the whitespace. -/
def tryMatchAt (l : List Char) : Option GMatch :=
  let d1 := l.takeWhile Char.isDigit
  if d1.isEmpty then none
  else
    let r1 := l.dropWhile Char.isDigit
    if r1.head? = some '/' then
      let r2 := r1.tail
      let d2 := r2.takeWhile Char.isDigit
      if d2.isEmpty then none
      else
        let r3 := r2.dropWhile Char.isDigit
        let ws := r3.takeWhile pyIsSpace
        let r4 := r3.dropWhile pyIsSpace
        let dp := r4.takeWhile Char.isDigit
        let pct : List Char :=
          if !dp.isEmpty && (r4.dropWhile Char.isDigit).head? = some '%' then dp ++ ['%'] else []
        some ⟨d1 ++ '/' :: (d2 ++ ws ++ pct), natOfDigits d1, natOfDigits d2⟩
    else none

/-- Embeds `re.search`: leftmost anchor position at which `tryMatchAt` succeeds. -/
def searchGrade : List Char → Option GMatch
  | [] => none
  | c :: t =>
    match tryMatchAt (c :: t) with
    | some m => some m
    | none => searchGrade t

/-- Python `l.replace` of `pat` by the empty string (all non-overlapping occurrences, left to
right), with explicit fuel to keep the recursion structural. -/
def replaceAllFuel (pat : List Char) : Nat → List Char → List Char
  | 0, l => l
  | _ + 1, [] => []
  | fuel + 1, c :: t =>
    if pat.isPrefixOf (c :: t) && !pat.isEmpty then
      replaceAllFuel pat fuel ((c :: t).drop pat.length)
    else c :: replaceAllFuel pat fuel t

/-- Python `l.replace` of `pat` by the empty string. -/
def replaceAll (pat l : List Char) : List Char :=
  replaceAllFuel pat l.length l

/-- One entry of `extracted_data` before the `Weight` column is added. -/
structure ParsedEntry where
  Section : String
  Item : String
  Achieved : ℚ
  Total : ℚ
deriving DecidableEq, Repr

/-- One row of the final grades DataFrame. -/
structure GradeRecord where
  Section : String
  Item : String
  Achieved : ℚ
  Total : ℚ
  Weight : Option ℚ
deriving DecidableEq, Repr

/-- The per-line body of the extraction loop: strip, skip empty and header
lines, search the grade regex, build the entry (`assignment` is the line with
every occurrence of the matched substring removed, then stripped). -/
def parseLine (line : List Char) : Option ParsedEntry :=
  let l := pyStrip line
  if l.isEmpty || containsAnyHeader l then none
  else
    (searchGrade l).map fun m =>
      ⟨"All Grades", String.mk (pyStrip (replaceAll m.group0 l)),
        (m.a : ℚ), (m.b : ℚ)⟩

/-- Embeds `extract_assignments_and_grades`: run the loop over all lines, then add the
constant `Weight` column (the assignment of 100.0 to the Weight column); an empty extraction yields
the empty record set. -/
def extract_assignments_and_grades (text : String) : List GradeRecord :=
  ((splitlines text.data).filterMap parseLine).map
    (fun e => ⟨e.Section, e.Item, e.Achieved, e.Total, some 100⟩)

/-- Python `round` to an integer: round half to even. -/
def roundHalfEven (x : ℚ) : ℤ :=
  let f := x.floor
  if x - f < 1 / 2 then f
  else if 1 / 2 < x - f then f + 1
  else if f % 2 = 0 then f else f + 1

/-- Python `round(x, 2)`. -/
def round2 (x : ℚ) : ℚ := (roundHalfEven (x * 100) : ℚ) / 100

/-- Order-preserving deduplication (pandas `Series.unique`). -/
def dedupAux (seen : List String) : List String → List String
  | [] => []
  | s :: t => if seen.contains s then dedupAux seen t else s :: dedupAux (s :: seen) t

/-- Embeds the `unique()` call on the Section column: section labels in order of appearance. -/
def uniqueSections (gs : List GradeRecord) : List String :=
  dedupAux [] (gs.map (·.Section))

/-- Embeds the row selection of one section from the DataFrame. -/
def sectionData (gs : List GradeRecord) (s : String) : List GradeRecord :=
  gs.filter (fun r => r.Section == s)

/-- Embeds the Achieved-column sum of one section. -/
def sectionAchieved (gs : List GradeRecord) (s : String) : ℚ :=
  ((sectionData gs s).map (·.Achieved)).sum

/-- Embeds the Total-column sum of one section. -/
def sectionTotal (gs : List GradeRecord) (s : String) : ℚ :=
  ((sectionData gs s).map (·.Total)).sum

/-- Embeds the section weight: the first Weight entry of the section unless
all its Weight entries are missing, in which case None (missing weights
modelled as `none`). -/
def sectionWeight (gs : List GradeRecord) (s : String) : Option ℚ :=
  let data := sectionData gs s
  if data.all (fun r => r.Weight.isNone) then none
  else match data with
    | [] => none
    | r :: _ => r.Weight

/-- Embeds the section percentage `(section_achieved / section_total) * 100`. -/
def sectionPct (gs : List GradeRecord) (s : String) : ℚ :=
  sectionAchieved gs s / sectionTotal gs s * 100

/-- Embeds the `section_grades` dict: per section with positive total, its percentage
and weight, in order of appearance. -/
def sectionGrades (gs : List GradeRecord) : List (ℚ × Option ℚ) :=
  (uniqueSections gs).filterMap fun s =>
    if 0 < sectionTotal gs s then some (sectionPct gs s, sectionWeight gs s) else none

/-- Embeds `weighted_sum`: `Σ percentage * (weight / 100)` over weighted sections. -/
def weightedSum (gs : List GradeRecord) : ℚ :=
  ((sectionGrades gs).filterMap (fun p => p.2.map (fun w => p.1 * (w / 100)))).sum

/-- Embeds `total_weight`: `Σ weight` over weighted sections. -/
def totalWeight (gs : List GradeRecord) : ℚ :=
  ((sectionGrades gs).filterMap (fun p => p.2)).sum

/-- Embeds the Achieved-column sum of the whole DataFrame. -/
def totalAchieved (gs : List GradeRecord) : ℚ := (gs.map (·.Achieved)).sum

/-- Embeds the Total-column sum of the whole DataFrame. -/
def totalPossible (gs : List GradeRecord) : ℚ := (gs.map (·.Total)).sum

/-- The unweighted fallback of `calculate_overall_grade`. -/
def fallbackGrade (gs : List GradeRecord) : ℚ :=
  if 0 < totalPossible gs then round2 (totalAchieved gs / totalPossible gs * 100) else 0

/-- Whether the weighted-aggregation branch (guarded by the check that some
section weight is not None) is entered. -/
def weightedBranchTaken (gs : List GradeRecord) : Bool :=
  !gs.isEmpty && (sectionGrades gs).any (fun p => p.2.isSome)

/-- Embeds `calculate_overall_grade`. -/
def calculate_overall_grade (gs : List GradeRecord) : ℚ :=
  if gs.isEmpty then 0
  else if (sectionGrades gs).any (fun p => p.2.isSome) then
    if 0 < totalWeight gs then round2 (weightedSum gs * (100 / totalWeight gs))
    else fallbackGrade gs
  else fallbackGrade gs

/-! ### Helper lemmas -/

theorem containsSub_iff {pat l : List Char} : containsSub pat l = true ↔ pat <:+: l := by
  induction l with
  | nil =>
    simp only [containsSub, List.isEmpty_iff]
    constructor
    · rintro rfl; exact ⟨[], [], rfl⟩
    · rintro ⟨s, t, h⟩
      rcases List.append_eq_nil.mp h with ⟨h1, h2⟩
      exact (List.append_eq_nil.mp h1).2
  | cons c t ih =>
    simp only [containsSub, Bool.or_eq_true, ih, List.isPrefixOf_iff_prefix]
    constructor
    · rintro (⟨u, hu⟩ | hinf)
      · exact ⟨[], u, by simpa using hu⟩
      · obtain ⟨s, u, hsu⟩ := hinf
        exact ⟨c :: s, u, by simpa using hsu⟩
    · rintro ⟨s, u, hsu⟩
      cases s with
      | nil => exact Or.inl ⟨u, by simpa using hsu⟩
      | cons x s' =>
        right
        rw [List.cons_append, List.cons_append] at hsu
        exact ⟨s', u, by injection hsu⟩

theorem infix_dropWhile_head {p : Char → Bool} {x : Char} {xs l : List Char}
    (hx : p x = false) (h : (x :: xs) <:+: l) : (x :: xs) <:+: l.dropWhile p := by
  induction l with
  | nil => exact absurd (List.eq_nil_of_infix_nil h) (by simp)
  | cons c t ih =>
    by_cases hc : p c = true
    · rw [List.dropWhile_cons_of_pos hc]
      obtain ⟨s, u, hsu⟩ := h
      cases s with
      | nil =>
        exfalso
        rw [List.nil_append, List.cons_append] at hsu
        injection hsu with h1 _
        rw [h1] at hx
        rw [hx] at hc
        exact Bool.false_ne_true hc
      | cons y s' =>
        apply ih
        rw [List.cons_append, List.cons_append] at hsu
        injection hsu with _ h2
        exact ⟨s', u, h2⟩
    · rw [List.dropWhile_cons_of_neg hc]
      exact h

theorem infix_pyStrip {x y : Char} {mid l : List Char}
    (hx : pyIsSpace x = false) (hy : pyIsSpace y = false)
    (h : (x :: (mid ++ [y])) <:+: l) : (x :: (mid ++ [y])) <:+: pyStrip l := by
  have h1 : (x :: (mid ++ [y])) <:+: l.dropWhile pyIsSpace :=
    infix_dropWhile_head hx h
  have h2 : (y :: (mid.reverse ++ [x])) <:+: (l.dropWhile pyIsSpace).reverse := by
    have := List.reverse_infix.mpr h1
    simpa using this
  have h3 : (y :: (mid.reverse ++ [x])) <:+:
      ((l.dropWhile pyIsSpace).reverse.dropWhile pyIsSpace) :=
    infix_dropWhile_head hy h2
  have h4 := List.reverse_infix.mpr h3
  simpa [pyStrip] using h4

theorem containsAnyHeader_pyStrip {l : List Char}
    (h : ∃ hd ∈ headerMarkers, containsSub hd.data l = true) :
    containsAnyHeader (pyStrip l) = true := by
  obtain ⟨hd, hmem, hsub⟩ := h
  rw [containsAnyHeader, List.any_eq_true]
  refine ⟨hd, hmem, ?_⟩
  rw [containsSub_iff] at hsub ⊢
  fin_cases hmem
  · have hshape : "Grade tem".data = 'G' :: ("rade te".data ++ ['m']) := rfl
    rw [hshape] at hsub ⊢
    exact infix_pyStrip (by decide) (by decide) hsub
  · have hshape : "Points".data = 'P' :: ("oint".data ++ ['s']) := rfl
    rw [hshape] at hsub ⊢
    exact infix_pyStrip (by decide) (by decide) hsub
  · have hshape : "Comments".data = 'C' :: ("omment".data ++ ['s']) := rfl
    rw [hshape] at hsub ⊢
    exact infix_pyStrip (by decide) (by decide) hsub
  · have hshape : "Grades -".data = 'G' :: ("rades ".data ++ ['-']) := rfl
    rw [hshape] at hsub ⊢
    exact infix_pyStrip (by decide) (by decide) hsub

theorem tryMatchAt_nil : tryMatchAt [] = none := rfl

theorem tryMatchAt_start {d e : Char} {y : List Char}
    (hd : d.isDigit = true) (he : e.isDigit = true) :
    (tryMatchAt (d :: '/' :: e :: y)).isSome = true := by
  have h47 : ('/'.isDigit) = false := rfl
  simp [tryMatchAt, List.takeWhile_cons, List.dropWhile_cons, hd, he, h47]

theorem searchGrade_isSome {l : List Char}
    (h : ∃ x d e y, l = x ++ d :: '/' :: e :: y ∧ d.isDigit = true ∧ e.isDigit = true) :
    (searchGrade l).isSome = true := by
  obtain ⟨x, d, e, y, rfl, hd, he⟩ := h
  induction x with
  | nil =>
    rw [List.nil_append]
    have hsome := tryMatchAt_start (y := y) hd he
    cases htm : tryMatchAt (d :: '/' :: e :: y) with
    | none => rw [htm] at hsome; cases hsome
    | some m => simp [searchGrade, htm]
  | cons c x' ih =>
    rw [List.cons_append]
    cases htm : tryMatchAt (c :: (x' ++ d :: '/' :: e :: y)) with
    | some m => simp [searchGrade, htm]
    | none => simpa [searchGrade, htm] using ih

theorem tryMatchAt_decomp {l : List Char} {m : GMatch} (h : tryMatchAt l = some m) :
    ∃ x d e y, l = x ++ d :: '/' :: e :: y ∧ d.isDigit = true ∧ e.isDigit = true := by
  rw [tryMatchAt] at h
  by_cases h1 : (l.takeWhile Char.isDigit).isEmpty
  · simp [h1] at h
  · by_cases h2 : (l.dropWhile Char.isDigit).head? = some '/'
    · by_cases h3 : ((l.dropWhile Char.isDigit).tail.takeWhile Char.isDigit).isEmpty
      · simp [h1, h2, h3] at h
      · have hd1 : l.takeWhile Char.isDigit ≠ [] := by
          simpa [List.isEmpty_iff] using h1
        have hd2 : (l.dropWhile Char.isDigit).tail.takeWhile Char.isDigit ≠ [] := by
          simpa [List.isEmpty_iff] using h3
        have hr1 : l.dropWhile Char.isDigit = '/' :: (l.dropWhile Char.isDigit).tail := by
          cases hc : l.dropWhile Char.isDigit with
          | nil => rw [hc] at h2; cases h2
          | cons a t =>
            rw [hc] at h2
            simp only [List.head?_cons, Option.some.injEq] at h2
            rw [h2]
            rfl
        have hsplit1 : l = l.takeWhile Char.isDigit ++ l.dropWhile Char.isDigit := by
          rw [List.takeWhile_append_dropWhile]
        have hsplit2 : (l.dropWhile Char.isDigit).tail =
            (l.dropWhile Char.isDigit).tail.takeWhile Char.isDigit ++
              (l.dropWhile Char.isDigit).tail.dropWhile Char.isDigit := by
          rw [List.takeWhile_append_dropWhile]
        obtain ⟨d, ds, hds⟩ : ∃ d ds, l.takeWhile Char.isDigit = ds ++ [d] :=
          ⟨_, _, (List.dropLast_append_getLast hd1).symm⟩
        obtain ⟨e', es, hes⟩ : ∃ e' es,
            (l.dropWhile Char.isDigit).tail.takeWhile Char.isDigit = e' :: es :=
          ⟨_, _, (List.head_cons_tail _ hd2).symm⟩
        refine ⟨ds, d, e',
          es ++ (l.dropWhile Char.isDigit).tail.dropWhile Char.isDigit, ?_, ?_, ?_⟩
        · conv_lhs => rw [hsplit1, hr1, hsplit2, hds, hes]
          simp [List.append_assoc]
        · exact List.mem_takeWhile_imp (by rw [hds]; simp)
        · exact List.mem_takeWhile_imp (by rw [hes]; simp)
    · simp [h1, h2] at h

theorem searchGrade_decomp {l : List Char} {m : GMatch} (h : searchGrade l = some m) :
    ∃ x d e y, l = x ++ d :: '/' :: e :: y ∧ d.isDigit = true ∧ e.isDigit = true := by
  induction l with
  | nil => cases h
  | cons c t ih =>
    rw [searchGrade] at h
    cases htm : tryMatchAt (c :: t) with
    | some m' => exact tryMatchAt_decomp htm
    | none =>
      rw [htm] at h
      obtain ⟨x, d, e, y, hdec, hd, he⟩ := ih h
      exact ⟨c :: x, d, e, y, by rw [List.cons_append, ← hdec], hd, he⟩

theorem searchGrade_of_leftmost :
    ∀ (i : Nat) (l : List Char) (m : GMatch),
      tryMatchAt (l.drop i) = some m → (∀ j < i, tryMatchAt (l.drop j) = none) →
      searchGrade l = some m := by
  intro i
  induction i with
  | zero =>
    intro l m hm _
    rw [List.drop_zero] at hm
    cases l with
    | nil => rw [tryMatchAt_nil] at hm; cases hm
    | cons c t => simp [searchGrade, hm]
  | succ i ih =>
    intro l m hm hlt
    cases l with
    | nil => rw [List.drop_nil, tryMatchAt_nil] at hm; cases hm
    | cons c t =>
      have h0 : tryMatchAt (c :: t) = none := by simpa using hlt 0 (Nat.succ_pos i)
      rw [List.drop_succ_cons] at hm
      have ht : searchGrade t = some m :=
        ih t m hm (fun j hj => by simpa using hlt (j + 1) (Nat.succ_lt_succ hj))
      simp [searchGrade, h0, ht]

theorem isEmpty_false_of_ne_nil {l : List Char} (h : l ≠ []) : l.isEmpty = false := by
  cases l with
  | nil => exact absurd rfl h
  | cons a t => rfl

theorem parseLine_eq (line : List Char) (h1 : pyStrip line ≠ [])
    (h2 : containsAnyHeader (pyStrip line) = false) :
    parseLine line = (searchGrade (pyStrip line)).map fun m =>
      ⟨"All Grades", String.mk (pyStrip (replaceAll m.group0 (pyStrip line))),
        (m.a : ℚ), (m.b : ℚ)⟩ := by
  have h1' := isEmpty_false_of_ne_nil h1
  simp [parseLine, h1', h2]

theorem parseLine_some_inv {line : List Char} {e : ParsedEntry}
    (h : parseLine line = some e) :
    ∃ m, searchGrade (pyStrip line) = some m ∧
      e = ⟨"All Grades", String.mk (pyStrip (replaceAll m.group0 (pyStrip line))),
        (m.a : ℚ), (m.b : ℚ)⟩ := by
  rw [parseLine] at h
  by_cases hc : ((pyStrip line).isEmpty || containsAnyHeader (pyStrip line)) = true
  · simp [hc] at h
  · simp only [hc] at h
    rw [if_neg (by simp [hc])] at h
    obtain ⟨m, hm, heq⟩ := Option.map_eq_some'.mp h
    exact ⟨m, hm, heq.symm⟩

theorem mem_extract {text : String} {r : GradeRecord}
    (h : r ∈ extract_assignments_and_grades text) :
    r.Section = "All Grades" ∧ r.Weight = some 100 ∧
      ∃ m : GMatch, r.Achieved = (m.a : ℚ) ∧ r.Total = (m.b : ℚ) := by
  rw [extract_assignments_and_grades] at h
  obtain ⟨e, he, rfl⟩ := List.mem_map.mp h
  obtain ⟨line, _, hp⟩ := List.mem_filterMap.mp he
  obtain ⟨m, _, rfl⟩ := parseLine_some_inv hp
  exact ⟨rfl, rfl, m, rfl, rfl⟩

theorem parseLine_of_header {line : List Char}
    (h : ∃ hd ∈ headerMarkers, containsSub hd.data line = true) :
    parseLine line = none := by
  have hh := containsAnyHeader_pyStrip h
  simp [parseLine, hh]

/-! ### Claim theorems -/

/-- C1: on the four-line example text, `extract_assignments_and_grades`
returns exactly the records (Homework 1, 18, 20) then (Quiz 1, 9, 10),
`extract_course_title` returns "MIS-353-01 Fall", and
`calculate_overall_grade` on that record set returns 90.00. -/
theorem claim_C1_example_pipeline :
    extract_assignments_and_grades
        "MIS-353-01 Fall\nHomework 1 18/20\nGrades - Header\nQuiz 1 9/10 90%" =
      [⟨"All Grades", "Homework 1", 18, 20, some 100⟩,
       ⟨"All Grades", "Quiz 1", 9, 10, some 100⟩] ∧
    extract_course_title
        "MIS-353-01 Fall\nHomework 1 18/20\nGrades - Header\nQuiz 1 9/10 90%" =
      "MIS-353-01 Fall" ∧
    calculate_overall_grade
        (extract_assignments_and_grades
          "MIS-353-01 Fall\nHomework 1 18/20\nGrades - Header\nQuiz 1 9/10 90%") = 90 := by
  refine ⟨by with_unfolding_all decide, by with_unfolding_all decide, by with_unfolding_all decide⟩

/-- C6: a line containing any of the designated header/noise substrings
produces no `GradeRecord`, even if it also contains a slash-number pattern. -/
theorem claim_C6_header_skip (line : List Char)
    (h : ∃ hd ∈ headerMarkers, containsSub hd.data line = true) :
    parseLine line = none :=
  parseLine_of_header h

theorem claim_C6_witness : parseLine "Grades - 5/10".data = none :=
  claim_C6_header_skip "Grades - 5/10".data
    ⟨"Grades -", by decide, by decide⟩

/-- C9: achieved above total is not clamped: a single record 22/20 with
weight 100 yields the overall grade 110.00, which exceeds 100. -/
theorem claim_C9_no_clamp :
    calculate_overall_grade [⟨"All Grades", "Exam", 22, 20, some 100⟩] = 110 ∧
    (100 : ℚ) < calculate_overall_grade [⟨"All Grades", "Exam", 22, 20, some 100⟩] := by
  refine ⟨by with_unfolding_all decide, by with_unfolding_all decide⟩

/-- C2: for a line whose stripped form is non-empty and free of header
markers: if it contains a digit-slash-digit substring the parser produces
exactly one entry, whose `Achieved`/`Total` are the integer groups of the
(leftmost) regex match, with section "All Grades"; with no such substring it
produces no entry; and every record of the final extraction carries section
"All Grades" and weight 100. -/
theorem claim_C2_grade_line_parse (line : List Char)
    (h1 : pyStrip line ≠ []) (h2 : containsAnyHeader (pyStrip line) = false) :
    ((∃ x d e y, pyStrip line = x ++ d :: '/' :: e :: y ∧
        d.isDigit = true ∧ e.isDigit = true) →
      ∃ m, searchGrade (pyStrip line) = some m ∧
        parseLine line = some ⟨"All Grades",
          String.mk (pyStrip (replaceAll m.group0 (pyStrip line))),
          (m.a : ℚ), (m.b : ℚ)⟩) ∧
    ((¬ ∃ x d e y, pyStrip line = x ++ d :: '/' :: e :: y ∧
        d.isDigit = true ∧ e.isDigit = true) →
      parseLine line = none) ∧
    (∀ (text : String) (r : GradeRecord), r ∈ extract_assignments_and_grades text →
      r.Section = "All Grades" ∧ r.Weight = some 100) := by
  refine ⟨?_, ?_, ?_⟩
  · intro hex
    have hsome : (searchGrade (pyStrip line)).isSome = true := searchGrade_isSome hex
    cases hs : searchGrade (pyStrip line) with
    | none => rw [hs] at hsome; cases hsome
    | some m =>
      refine ⟨m, rfl, ?_⟩
      rw [parseLine_eq line h1 h2, hs]
      rfl
  · intro hnone
    cases hs : searchGrade (pyStrip line) with
    | none => rw [parseLine_eq line h1 h2, hs]; rfl
    | some m => exact absurd (searchGrade_decomp hs) hnone
  · intro text r hr
    exact ⟨(mem_extract hr).1, (mem_extract hr).2.1⟩

theorem claim_C2_witness :
    ∃ m, searchGrade (pyStrip "HW 18/20".data) = some m ∧
      parseLine "HW 18/20".data = some ⟨"All Grades",
        String.mk (pyStrip (replaceAll m.group0 (pyStrip "HW 18/20".data))),
        (m.a : ℚ), (m.b : ℚ)⟩ :=
  (claim_C2_grade_line_parse "HW 18/20".data (by decide) (by decide)).1
    ⟨"HW 1".data, '8', '2', ['0'], by decide, by decide, by decide⟩

/-- C4 amended: every record returned by `extract_assignments_and_grades` has
`Total ≥ 0` (the regex groups are digit strings); `Total = 0` is possible. -/
theorem claim_C4_amended_total_nonneg (text : String) (r : GradeRecord)
    (h : r ∈ extract_assignments_and_grades text) : 0 ≤ r.Total := by
  obtain ⟨-, -, m, -, ht⟩ := mem_extract h
  rw [ht]
  exact Nat.cast_nonneg m.b

theorem claim_C4_witness :
    0 ≤ (GradeRecord.mk "All Grades" "Task" 5 0 (some 100)).Total :=
  claim_C4_amended_total_nonneg "Task 5/0" _ (by with_unfolding_all decide)

/-- C10: for a non-empty, non-header line, even with several digit-slash-digit
tokens, the parser emits exactly one entry: its integers come from the
leftmost position where the grade regex matches, and the item label is the
line with every occurrence of the matched substring (trailing whitespace and
percentage token included) removed, then stripped. -/
theorem claim_C10_leftmost_replace_all (line : List Char)
    (h1 : pyStrip line ≠ []) (h2 : containsAnyHeader (pyStrip line) = false)
    (i : Nat) (m : GMatch)
    (hm : tryMatchAt ((pyStrip line).drop i) = some m)
    (hleft : ∀ j < i, tryMatchAt ((pyStrip line).drop j) = none) :
    parseLine line = some ⟨"All Grades",
      String.mk (pyStrip (replaceAll m.group0 (pyStrip line))),
      (m.a : ℚ), (m.b : ℚ)⟩ := by
  have hs := searchGrade_of_leftmost i (pyStrip line) m hm hleft
  rw [parseLine_eq line h1 h2, hs]
  rfl

theorem claim_C10_witness :
    parseLine "A 1/2 3/4".data = some ⟨"All Grades", "A 3/4", 1, 2⟩ := by
  have h := claim_C10_leftmost_replace_all "A 1/2 3/4".data (by decide) (by decide)
    2 ⟨"1/2 ".data, 1, 2⟩ (by decide) (by decide)
  rw [h]
  with_unfolding_all decide

/-- C4 counterexample: on the input line "Task 5/0" the parser emits a record
with `Total = 0`, so not every extracted record has a positive total. -/
theorem claim_C4_counterexample :
    ¬ (∀ r ∈ extract_assignments_and_grades "Task 5/0", 0 < r.Total) := by
  decide

/-- C5 counterexample: the weighted-aggregation branch is reachable on parser
output: it is taken for the `GradeSet` extracted from "HW 18/20". -/
theorem claim_C5_counterexample :
    weightedBranchTaken (extract_assignments_and_grades "HW 18/20") = true := by
  with_unfolding_all decide

/-- C3 counterexample: on the one-line text "AB-123-45 " (trailing space) the
line matches the course pattern, but `extract_course_title` does not return
the line with only the characters outside letters/digits/hyphen/space removed:
the code additionally trims whitespace, dropping the trailing space. -/
theorem claim_C3_counterexample :
    courseMatch "AB-123-45 ".data = true ∧
    splitlines "AB-123-45 ".data = ["AB-123-45 ".data] ∧
    extract_course_title "AB-123-45 " ≠
      String.mk ("AB-123-45 ".data.filter keepTitleChar) := by
  refine ⟨by with_unfolding_all decide, by with_unfolding_all decide, by with_unfolding_all decide⟩

/-- C8 counterexample: two sections with the same weight 0 and percentages 80
and 100 do not yield 90.00 (the weighted path is skipped when the total weight
is 0 and the pooled fallback ratio is returned instead). -/
theorem claim_C8_counterexample :
    uniqueSections [⟨"A", "", 80, 100, some 0⟩, ⟨"B", "", 10, 10, some 0⟩] = ["A", "B"] ∧
    sectionPct [⟨"A", "", 80, 100, some 0⟩, ⟨"B", "", 10, 10, some 0⟩] "A" = 80 ∧
    sectionPct [⟨"A", "", 80, 100, some 0⟩, ⟨"B", "", 10, 10, some 0⟩] "B" = 100 ∧
    sectionWeight [⟨"A", "", 80, 100, some 0⟩, ⟨"B", "", 10, 10, some 0⟩] "A" =
      sectionWeight [⟨"A", "", 80, 100, some 0⟩, ⟨"B", "", 10, 10, some 0⟩] "B" ∧
    calculate_overall_grade [⟨"A", "", 80, 100, some 0⟩, ⟨"B", "", 10, 10, some 0⟩] ≠ 90 := by
  refine ⟨by with_unfolding_all decide, by with_unfolding_all decide, by with_unfolding_all decide, by with_unfolding_all decide, by with_unfolding_all decide⟩

theorem find?_append_cons {α : Type} {p : α → Bool} :
    ∀ (pre : List α) (l : α) (post : List α),
      (∀ x ∈ pre, p x = false) → p l = true →
      (pre ++ l :: post).find? p = some l := by
  intro pre
  induction pre with
  | nil =>
    intro l post _ hl
    rw [List.nil_append]
    exact List.find?_cons_of_pos _ hl
  | cons a t ih =>
    intro l post hpre hl
    rw [List.cons_append, List.find?_cons_of_neg]
    · exact ih l post (fun x hx => hpre x (List.mem_cons_of_mem a hx)) hl
    · simp [hpre a (List.mem_cons_self a t)]

/-- C3 amended: `extract_course_title` returns the first course-pattern line
with leading/trailing whitespace trimmed and then every character outside
letters/digits/hyphen/space removed; with no matching line it returns
"Unknown Course". -/
theorem claim_C3_amended_title (text : String) :
    ((∀ l ∈ splitlines text.data, courseMatch l = false) →
      extract_course_title text = "Unknown Course") ∧
    (∀ (pre : List (List Char)) (l : List Char) (post : List (List Char)),
      splitlines text.data = pre ++ l :: post →
      courseMatch l = true → (∀ l' ∈ pre, courseMatch l' = false) →
      extract_course_title text = String.mk ((pyStrip l).filter keepTitleChar)) := by
  constructor
  · intro hall
    have hnone : (splitlines text.data).find? courseMatch = none :=
      List.find?_eq_none.mpr (fun x hx => by simp [hall x hx])
    rw [extract_course_title, hnone]
  · intro pre l post hsplit hmatch hpre
    have hfind : (splitlines text.data).find? courseMatch = some l := by
      rw [hsplit]
      exact find?_append_cons pre l post hpre hmatch
    rw [extract_course_title, hfind]

theorem claim_C3_witness :
    extract_course_title "hello" = "Unknown Course" ∧
    extract_course_title "junk\nAB-123-45 Spring!" = "AB-123-45 Spring" := by
  constructor
  · exact (claim_C3_amended_title "hello").1 (by decide)
  · have h := (claim_C3_amended_title "junk\nAB-123-45 Spring!").2
      ["junk".data] "AB-123-45 Spring!".data [] (by decide) (by decide) (by decide)
    rw [h]
    decide

theorem dedupAux_nil_of_mem {a : String} :
    ∀ (lst seen : List String), (∀ s ∈ lst, s = a) → a ∈ seen →
      dedupAux seen lst = [] := by
  intro lst
  induction lst with
  | nil => intro seen _ _; rfl
  | cons s t ih =>
    intro seen hall hmem
    have hs : s = a := hall s (List.mem_cons_self s t)
    have hc : seen.contains s = true := by
      subst hs
      exact List.elem_iff.mpr hmem
    rw [dedupAux, if_pos hc]
    exact ih seen (fun x hx => hall x (List.mem_cons_of_mem s hx)) hmem

theorem uniqueSections_const (r : GradeRecord) (t : List GradeRecord)
    (hall : ∀ x ∈ r :: t, x.Section = "All Grades") :
    uniqueSections (r :: t) = ["All Grades"] := by
  rw [uniqueSections, List.map_cons, hall r (List.mem_cons_self r t)]
  rw [dedupAux, if_neg (by decide)]
  rw [dedupAux_nil_of_mem (t.map (·.Section)) _
    (fun s hs => by
      obtain ⟨x, hx, rfl⟩ := List.mem_map.mp hs
      exact hall x (List.mem_cons_of_mem r hx))
    (List.mem_cons_self _ _)]

theorem sectionData_const {gs : List GradeRecord}
    (hall : ∀ x ∈ gs, x.Section = "All Grades") :
    sectionData gs "All Grades" = gs := by
  rw [sectionData, List.filter_eq_self]
  intro a ha
  simp [hall a ha]

theorem calc_uniform (gs : List GradeRecord)
    (hall : ∀ r ∈ gs, r.Section = "All Grades" ∧ r.Weight = some 100) :
    calculate_overall_grade gs =
      if 0 < totalPossible gs then
        round2 (totalAchieved gs / totalPossible gs * 100)
      else 0 := by
  cases gs with
  | nil =>
    rw [calculate_overall_grade]
    have h0 : totalPossible [] = 0 := rfl
    rw [h0]
    norm_num
  | cons r t =>
    have hsec : ∀ x ∈ r :: t, x.Section = "All Grades" := fun x hx => (hall x hx).1
    have huniq := uniqueSections_const r t hsec
    have hdata := sectionData_const hsec
    have hach : sectionAchieved (r :: t) "All Grades" = totalAchieved (r :: t) := by
      rw [sectionAchieved, hdata]; rfl
    have htot : sectionTotal (r :: t) "All Grades" = totalPossible (r :: t) := by
      rw [sectionTotal, hdata]; rfl
    have hwt : sectionWeight (r :: t) "All Grades" = some 100 := by
      rw [sectionWeight]
      simp only [hdata]
      rw [if_neg]
      · exact (hall r (List.mem_cons_self r t)).2
      · rw [List.all_cons, (hall r (List.mem_cons_self r t)).2]
        simp
    by_cases hpos : 0 < totalPossible (r :: t)
    · have hsg : sectionGrades (r :: t) =
          [(sectionPct (r :: t) "All Grades", some 100)] := by
        rw [sectionGrades, huniq]
        simp [htot, hpos, hwt]
      have hws : weightedSum (r :: t) =
          sectionPct (r :: t) "All Grades" * (100 / 100) := by
        rw [weightedSum, hsg]
        simp
      have htw : totalWeight (r :: t) = 100 := by
        rw [totalWeight, hsg]
        simp
      rw [calculate_overall_grade]
      rw [if_neg (by simp)]
      rw [if_pos (by rw [hsg]; simp)]
      rw [if_pos (by rw [htw]; norm_num)]
      rw [if_pos hpos, hws, htw, sectionPct, hach, htot]
      norm_num
    · have hsg : sectionGrades (r :: t) = [] := by
        rw [sectionGrades, huniq]
        simp [htot, hpos]
      rw [calculate_overall_grade]
      rw [if_neg (by simp)]
      rw [if_neg (by rw [hsg]; simp)]
      rw [fallbackGrade, if_neg hpos]

/-- C5 amended: the weighted branch is in fact taken whenever the parsed set
has a positive grand total (see the counterexample), but the returned value
always equals the unweighted fallback: for every input text,
`calculate_overall_grade` of the extraction is `round2 (100 * Σ achieved / Σ
total)`, or 0 when the grand total is 0. -/
theorem claim_C5_amended_fallback_value (text : String) :
    calculate_overall_grade (extract_assignments_and_grades text) =
      if 0 < totalPossible (extract_assignments_and_grades text) then
        round2 (totalAchieved (extract_assignments_and_grades text) /
          totalPossible (extract_assignments_and_grades text) * 100)
      else 0 :=
  calc_uniform _ (fun _ hr => ⟨(mem_extract hr).1, (mem_extract hr).2.1⟩)

/-- C7: aggregation is total and never divides by zero: on the empty set the
grade is 0, and on any set whose per-section and overall total points are all
0 the grade is the defined value 0. -/
theorem claim_C7_zero_total_safe (gs : List GradeRecord)
    (h1 : ∀ s ∈ uniqueSections gs, sectionTotal gs s = 0)
    (h2 : totalPossible gs = 0) :
    calculate_overall_grade [] = 0 ∧ calculate_overall_grade gs = 0 := by
  refine ⟨rfl, ?_⟩
  cases gs with
  | nil => rfl
  | cons r t =>
    have hsg : sectionGrades (r :: t) = [] := by
      rw [sectionGrades, List.filterMap_eq_nil_iff]
      intro s hs
      rw [h1 s hs]
      simp
    rw [calculate_overall_grade]
    rw [if_neg (by simp)]
    rw [if_neg (by rw [hsg]; simp)]
    rw [fallbackGrade, if_neg (by rw [h2]; norm_num)]

theorem claim_C7_witness :
    calculate_overall_grade [] = 0 ∧
    calculate_overall_grade [⟨"A", "x", 3, 0, some 100⟩] = 0 :=
  claim_C7_zero_total_safe [⟨"A", "x", 3, 0, some 100⟩]
    (by with_unfolding_all decide) (by with_unfolding_all decide)

/-- C8 amended: for a `GradeSet` with exactly two sections of equal positive
weight, one at percentage 80 and the other at percentage 100, the overall
grade is 90.00 (with weight 0 the weighted path is skipped — see the
counterexample). -/
theorem claim_C8_amended_equal_weights (gs : List GradeRecord) (s1 s2 : String)
    (w : ℚ) (huniq : uniqueSections gs = [s1, s2])
    (hw1 : sectionWeight gs s1 = some w) (hw2 : sectionWeight gs s2 = some w)
    (hwpos : 0 < w)
    (ht1 : 0 < sectionTotal gs s1) (ht2 : 0 < sectionTotal gs s2)
    (hp1 : sectionPct gs s1 = 80) (hp2 : sectionPct gs s2 = 100) :
    calculate_overall_grade gs = 90 := by
  have hne : gs.isEmpty = false := by
    cases gs with
    | nil => simp [uniqueSections, dedupAux] at huniq
    | cons _ _ => rfl
  have hsg : sectionGrades gs = [(80, some w), (100, some w)] := by
    rw [sectionGrades, huniq]
    simp [ht1, ht2, hw1, hw2, hp1, hp2]
  have hws : weightedSum gs = 80 * (w / 100) + (100 * (w / 100) + 0) := by
    rw [weightedSum, hsg]
    rfl
  have htw : totalWeight gs = w + (w + 0) := by
    rw [totalWeight, hsg]
    rfl
  rw [calculate_overall_grade]
  rw [if_neg (by rw [hne]; simp)]
  rw [if_pos (by rw [hsg]; simp)]
  rw [if_pos (by rw [htw]; linarith)]
  rw [hws, htw]
  have harg : (80 * (w / 100) + (100 * (w / 100) + 0)) * (100 / (w + (w + 0))) = 90 := by
    have hwne : w ≠ 0 := ne_of_gt hwpos
    field_simp
    ring
  rw [harg]
  with_unfolding_all decide

theorem claim_C8_witness :
    calculate_overall_grade
      [⟨"A", "", 80, 100, some 50⟩, ⟨"B", "", 10, 10, some 50⟩] = 90 :=
  claim_C8_amended_equal_weights _ "A" "B" 50
    (by with_unfolding_all decide) (by with_unfolding_all decide)
    (by with_unfolding_all decide) (by with_unfolding_all decide)
    (by with_unfolding_all decide) (by with_unfolding_all decide)
    (by with_unfolding_all decide) (by with_unfolding_all decide)

end GradCalc
